import Mathlib

/-!
Verification development for the EigenTrust protocol repository.

The development shallowly embeds the Rust sources:
- `src/server/src/manager/mod.rs` (attestation ledger, epoch proof cache),
- `src/protocol/src/manager/attestation.rs` (wire codec for attestations),
- `src/src/network.rs` (live-simulation convergence engine).

External collaborators (the `eigen_trust_circuit` crate: Poseidon hashing,
EdDSA signature verification, byte codecs of field elements and curve
points, the ZK proof backend) are modelled as abstract function
environments (`CryptoEnv`, `CodecEnv`); their algebraic round-trip laws
appear as explicit hypotheses where a theorem needs them.

Rust `HashMap`s are modelled as association lists with replace-on-insert
semantics; machine panics (`Option::unwrap` on `None`) are modelled by
`Option`-valued functions returning `none`.
-/

/-- Number of participants, `NUM_NEIGHBOURS` in `src/server/src/manager/mod.rs`. -/
def NUM_NEIGHBOURS : Nat := 5

/-- Iteration count `NUM_ITER` in `src/server/src/manager/mod.rs`. -/
def NUM_ITER : Nat := 10

/-- Initial score `INITIAL_SCORE` in `src/server/src/manager/mod.rs`. -/
def INITIAL_SCORE : Nat := 1000

/-- Error enum of the server crate; the variants used by the embedded code. -/
inductive EigenError where
  | InvalidAttestation
  | AttestationNotFound
  | ProofNotFound
deriving DecidableEq, Repr

/-- EdDSA signature as inspected by the codec: `big_r.x`, `big_r.y`, `s`
(three field elements, modelled as naturals). -/
structure Signature where
  rx : Nat
  ry : Nat
  s : Nat
deriving DecidableEq, Repr

/-- The `Attestation` struct of `src/protocol/src/manager/attestation.rs`:
a signature, the signer public key, the neighbour public keys and the
scores.  Public keys and score scalars are abstract values (naturals). -/
structure Attestation where
  sig : Signature
  pk : Nat
  neighbours : List Nat
  scores : List Nat
deriving DecidableEq, Repr

/-- The `Proof` struct cached per epoch: public inputs plus opaque proof
bytes (abstracted to one natural). -/
structure ZkProof where
  pub_ins : List Nat
  proof : Nat
deriving DecidableEq, Repr

/-- The `Manager` state of `src/server/src/manager/mod.rs`: the epoch proof
cache and the attestation store, both `HashMap`s modelled as association
lists keyed by naturals (epochs, resp. public-key hashes). -/
structure Manager where
  cached_proofs : List (Nat × ZkProof)
  attestations : List (Nat × Attestation)
deriving DecidableEq, Repr

/-- Abstract environment for the external cryptographic collaborators used
by `Manager`: `pkHash` is the Poseidon hash of a public key (first output
of `PoseidonNativeHasher` on `[x, y, 0, 0, 0]`), `messageHash` is
`calculate_message_hash`, `verify` is EdDSA `verify_sig`; `group` is the
decoded `PUBLIC_KEYS` constant and `fixedPkHashes` the hashes of the
`FIXED_SET` keys; `native` and `genProof` abstract the circuit backend. -/
structure CryptoEnv where
  pkHash : Nat → Nat
  messageHash : List Nat → List Nat → Nat
  verify : Signature → Nat → Nat → Bool
  group : List Nat
  fixedPkHashes : List Nat
  native : List Nat → List (List Nat) → List Nat
  genProof : List Signature → List (List Nat) → List Nat → Nat
  initialScore : Nat

/-- Association-list model of `HashMap::insert`: the new binding replaces
any prior binding of the same key. -/
def insertA {α : Type} (k : Nat) (v : α) (l : List (Nat × α)) : List (Nat × α) :=
  (k, v) :: l.filter (fun e => e.1 != k)

/-- Association-list model of `HashMap::get`. -/
def lookupA {α : Type} (k : Nat) (l : List (Nat × α)) : Option α :=
  (l.find? (fun e => e.1 == k)).map (fun e => e.2)

/-- Embedding of `Manager::add_attestation` (src/server/src/manager/mod.rs,
lines 95-138): hash all neighbour keys and compare with the decoded
`PUBLIC_KEYS` list, check that the signer's hash is in that list, verify
the signature over `calculate_message_hash(neighbours, scores)`, then
insert keyed by the signer's hash.  The Rust `&mut self` + `Result` shape
is returned as (post-state, result). -/
def add_attestation (env : CryptoEnv) (m : Manager) (att : Attestation) :
    Manager × Except EigenError Unit :=
  let pk_hashes := att.neighbours.map env.pkHash
  if env.group ≠ pk_hashes then (m, .error .InvalidAttestation)
  else
    let res := env.pkHash att.pk
    if res ∉ env.group then (m, .error .InvalidAttestation)
    else
      let message_hash := env.messageHash att.neighbours att.scores
      if env.verify att.sig att.pk message_hash then
        ({ m with attestations := insertA res att m.attestations }, .ok ())
      else (m, .error .InvalidAttestation)

/-- Embedding of `Manager::get_attestation`: look up under the Poseidon
hash of the public key. -/
def get_attestation (env : CryptoEnv) (m : Manager) (pk : Nat) :
    Except EigenError Attestation :=
  match lookupA (env.pkHash pk) m.attestations with
  | some a => .ok a
  | none => .error .AttestationNotFound

/-- Sequential lookup of all attestations for the given key hashes;
`none` models the `unwrap()` panic in `Manager::calculate_proofs` when a
participant's attestation is missing. -/
def lookupAll (ks : List Nat) (l : List (Nat × Attestation)) :
    Option (List Attestation) :=
  match ks with
  | [] => some []
  | k :: rest =>
    match lookupA k l, lookupAll rest l with
    | some a, some tail => some (a :: tail)
    | _, _ => none

/-- Embedding of `Manager::calculate_proofs` (src/server/src/manager/mod.rs,
lines 170-214): fetch every fixed participant's attestation (panicking —
`none` — if one is missing), run the native computation and proof
generation, and cache the resulting proof under the epoch. -/
def calculate_proofs (env : CryptoEnv) (m : Manager) (epoch : Nat) :
    Option Manager :=
  match lookupAll env.fixedPkHashes m.attestations with
  | none => none
  | some atts =>
    let ops := atts.map (fun a => a.scores)
    let sigs := atts.map (fun a => a.sig)
    let pub_ins := env.native (List.replicate NUM_NEIGHBOURS env.initialScore) ops
    let proof_bytes := env.genProof sigs ops pub_ins
    some { m with
      cached_proofs :=
        insertA epoch { pub_ins := pub_ins, proof := proof_bytes } m.cached_proofs }

/-- Embedding of `Manager::get_proof`. -/
def get_proof (m : Manager) (epoch : Nat) : Except EigenError ZkProof :=
  match lookupA epoch m.cached_proofs with
  | some p => .ok p
  | none => .error .ProofNotFound

/-- The maximum-epoch scan from `Manager::get_last_proof`: fold over the
cache keys keeping the largest; `none` exactly when the cache is empty. -/
def lastEpoch (l : List (Nat × ZkProof)) : Option Nat :=
  l.foldl
    (fun acc kv =>
      match acc with
      | some e => if kv.1 > e then some kv.1 else some e
      | none => some kv.1)
    none

/-- Embedding of `Manager::get_last_proof` (src/server/src/manager/mod.rs,
lines 222-237): find the maximum epoch then `get_proof` on it; the Rust
code ends with `epoch.unwrap()`, so an empty cache is a panic, modelled
as `none`. -/
def get_last_proof (m : Manager) : Option (Except EigenError ZkProof) :=
  match lastEpoch m.cached_proofs with
  | none => none
  | some e => some (get_proof m e)

/-- Peer of the live simulation.  Modelled from the spec: the repository
snapshot contains `src/src/network.rs` but not `peer.rs`, so the `Peer`
struct follows the spec's data model (§3): an index, a global score, a
neighbour-edge map `PeerIndex -> local_trust_weight` (stored as an
association list, as installed by `Network::connect_peers`), and a
convergence flag.  Scores are rationals standing in for the float scores. -/
structure Peer where
  index : Nat
  score : ℚ
  neighbours : List (Nat × ℚ)
  converged : Bool
deriving DecidableEq, Repr

/-- The first peer with the given index within a peer list. -/
def lookupPeer (peers : List Peer) (j : Nat) : Option Peer :=
  match peers with
  | [] => none
  | p :: rest => if p.index = j then some p else lookupPeer rest j

/-- Score of the peer with the given index within a peer list (0 when the
index is absent). -/
def lookupScore (peers : List Peer) (j : Nat) : ℚ :=
  match lookupPeer peers j with
  | some p => p.score
  | none => 0

/-- Heartbeat of a peer.  Modelled from the spec (§4.3b, `peer.rs` not in
the snapshot): recompute the peer's global score as the trust-weighted
sum of its neighbours' scores as read from the supplied peer slice, and
set the convergence flag when the absolute change from the previous score
is below the threshold `delta` (`DELTA` in `NetworkConfig`). -/
def heartbeat (delta : ℚ) (peers : List Peer) (p : Peer) : Peer :=
  let newScore := (p.neighbours.map (fun e => e.2 * lookupScore peers e.1)).sum
  { p with score := newScore, converged := decide (|newScore - p.score| < delta) }

/-- The `Network` aggregate of `src/src/network.rs`: the peer vector and
the network-level convergence flag. -/
structure Network where
  peers : List Peer
  is_converged : Bool
deriving DecidableEq, Repr

/-- Embedding of `Network::tick` (src/src/network.rs, lines 45-56): clone
the peer vector, shuffle it (the `shuffle` argument abstracts the RNG:
it is the permutation the RNG produces), run every peer's heartbeat
against the *pre-tick* `self.peers`, AND the per-peer convergence flags,
and install the shuffled updated vector as the new peer vector. -/
def tick (delta : ℚ) (net : Network) (shuffle : List Peer → List Peer) : Network :=
  let temp := shuffle net.peers
  let updated := temp.map (heartbeat delta net.peers)
  { peers := updated, is_converged := updated.all (fun p => p.converged) }

/-- Iterated ticks, one shuffle per tick (the driving loop of the spec). -/
def tickN (delta : ℚ) (net : Network) (shuffles : List (List Peer → List Peer)) :
    Network :=
  shuffles.foldl (fun n sh => tick delta n sh) net

/-- Embedding of `Network::get_global_trust_scores` (src/src/network.rs,
lines 58-70): sum all raw scores, then return every peer's raw score
divided by that sum, in peer-vector order. -/
def get_global_trust_scores (net : Network) : List ℚ :=
  let total := (net.peers.map Peer.score).sum
  net.peers.map (fun p => p.score / total)

/-- Reference tick following the spec's words for C4 (Gauss–Seidel): visit
the peers in the shuffled order and recompute each visited peer's score
from the *current* state, so that peers visited earlier in the same tick
contribute their updated scores. -/
def gsUpdate (delta : ℚ) (cur : List Peer) (idx : Nat) : List Peer :=
  cur.map (fun p => if p.index == idx then heartbeat delta cur p else p)

/-- Reference Gauss–Seidel tick (the behaviour C4 claims `tick` has). -/
def tickGS (delta : ℚ) (net : Network) (shuffle : List Peer → List Peer) : Network :=
  let order := (shuffle net.peers).map Peer.index
  let final := order.foldl (fun cur idx => gsUpdate delta cur idx) net.peers
  { peers := final, is_converged := final.all (fun p => p.converged) }

section ManagerLemmas

/-- Helper: a successful `add_attestation` is exactly the insert of the
attestation under the signer's hash. -/
theorem add_attestation_ok_eq (env : CryptoEnv) (m : Manager) (att : Attestation)
    (h : (add_attestation env m att).2 = .ok ()) :
    add_attestation env m att =
      ({ m with attestations :=
          insertA (env.pkHash att.pk) att m.attestations }, .ok ()) := by
  unfold add_attestation at h ⊢
  dsimp only at h ⊢
  split_ifs at h ⊢ <;> simp_all

end ManagerLemmas

/-- C2: an attestation whose signature does not verify against the message
hash recomputed from its neighbours and scores and against its signer
public key is rejected with `InvalidAttestation`, and the attestation
store is unchanged (the returned state is the input state). -/
theorem c2_invalid_signature_rejected (env : CryptoEnv) (m : Manager)
    (att : Attestation)
    (h : env.verify att.sig att.pk
        (env.messageHash att.neighbours att.scores) = false) :
    add_attestation env m att = (m, .error .InvalidAttestation) := by
  unfold add_attestation
  dsimp only
  split_ifs with h1 h2 h3
  · rfl
  · rw [h] at h3
    exact absurd h3 (by simp)
  · rfl
  · rfl

/-- Witness for C2 at a concrete input: a rejecting verifier. -/
theorem c2_witness :
    add_attestation
      { pkHash := id, messageHash := fun _ _ => 0,
        verify := fun _ _ _ => false, group := [0, 1, 2, 3, 4],
        fixedPkHashes := [0, 1, 2, 3, 4], native := fun _ _ => [],
        genProof := fun _ _ _ => 0, initialScore := 1000 }
      { cached_proofs := [], attestations := [] }
      { sig := ⟨0, 0, 0⟩, pk := 0, neighbours := [0, 1, 2, 3, 4],
        scores := [1, 1, 1, 1, 1] } =
      ({ cached_proofs := [], attestations := [] }, .error .InvalidAttestation) :=
  c2_invalid_signature_rejected _ _ _ rfl

/-- C3: an attestation whose signer, or any of whose neighbours, hashes
outside the recognized participant set is rejected with
`InvalidAttestation`, and the attestation store is unchanged. -/
theorem c3_nonmember_rejected (env : CryptoEnv) (m : Manager) (att : Attestation)
    (h : env.pkHash att.pk ∉ env.group ∨
        ∃ n ∈ att.neighbours, env.pkHash n ∉ env.group) :
    add_attestation env m att = (m, .error .InvalidAttestation) := by
  unfold add_attestation
  dsimp only
  split_ifs with h1 h2 h3 <;> try rfl
  exfalso
  rw [not_ne_iff] at h1
  rcases h with hsig | ⟨n, hn, hout⟩
  · exact hsig h2
  · exact hout (by rw [h1]; exact List.mem_map_of_mem env.pkHash hn)

/-- Witness for C3 at a concrete input: signer hash 7 is outside the
group `[0, 1, 2, 3, 4]`. -/
theorem c3_witness :
    add_attestation
      { pkHash := id, messageHash := fun _ _ => 0,
        verify := fun _ _ _ => true, group := [0, 1, 2, 3, 4],
        fixedPkHashes := [0, 1, 2, 3, 4], native := fun _ _ => [],
        genProof := fun _ _ _ => 0, initialScore := 1000 }
      { cached_proofs := [], attestations := [] }
      { sig := ⟨0, 0, 0⟩, pk := 7, neighbours := [0, 1, 2, 3, 4],
        scores := [1, 1, 1, 1, 1] } =
      ({ cached_proofs := [], attestations := [] }, .error .InvalidAttestation) :=
  c3_nonmember_rejected _ _ _ (Or.inl (by decide))

/-- C1: evaluating `calculate_proofs` on a ledger that is missing the
attestation of a fixed-set participant.  The Rust code reaches
`self.attestations.get(&pk_hash).unwrap()` on `None` and panics (modelled
as `none`); the run is not skipped gracefully as the claim states. -/
theorem c1_missing_attestation_panics :
    calculate_proofs
      { pkHash := id, messageHash := fun _ _ => 0,
        verify := fun _ _ _ => true, group := [0, 1, 2, 3, 4],
        fixedPkHashes := [0, 1, 2, 3, 4], native := fun _ _ => [],
        genProof := fun _ _ _ => 0, initialScore := 1000 }
      { cached_proofs := [], attestations := [] } 0 = none := rfl

/-- C6: evaluating `get_last_proof` on an empty epoch cache.  The Rust
code reaches `epoch.unwrap()` on `None` and panics (modelled as `none`)
instead of returning the `ProofNotFound` error the claim states. -/
theorem c6_empty_cache_panics :
    get_last_proof { cached_proofs := [], attestations := [] } = none := rfl

/-- Counterexample to C5: an attestation whose five neighbours all hash
into the participant set, whose signer is in the set, whose arity is
correct and whose signature verifies — but whose neighbour list has the
first two canonical participants swapped — is rejected, because
`add_attestation` compares the neighbour hash list to the decoded
`PUBLIC_KEYS` list for exact ordered equality, not mere membership. -/
theorem c5_counterexample :
    (∀ n ∈ ([1, 0, 2, 3, 4] : List Nat), (id : Nat → Nat) n ∈ ([0, 1, 2, 3, 4] : List Nat)) ∧
    add_attestation
      { pkHash := id, messageHash := fun _ _ => 0,
        verify := fun _ _ _ => true, group := [0, 1, 2, 3, 4],
        fixedPkHashes := [0, 1, 2, 3, 4], native := fun _ _ => [],
        genProof := fun _ _ _ => 0, initialScore := 1000 }
      { cached_proofs := [], attestations := [] }
      { sig := ⟨0, 0, 0⟩, pk := 0, neighbours := [1, 0, 2, 3, 4],
        scores := [1, 1, 1, 1, 1] } =
      ({ cached_proofs := [], attestations := [] }, .error .InvalidAttestation) :=
  ⟨by decide, rfl⟩

/-- C5 (amended): an attestation is accepted and stored exactly when its
neighbour hash list equals the canonical participant hash list in the
canonical order, its signer hashes into that list, and its signature
verifies. -/
theorem c5_ordered_membership_accept (env : CryptoEnv) (m : Manager)
    (att : Attestation)
    (hg : env.group = att.neighbours.map env.pkHash)
    (hs : env.pkHash att.pk ∈ env.group)
    (hv : env.verify att.sig att.pk
        (env.messageHash att.neighbours att.scores) = true) :
    add_attestation env m att =
      ({ m with attestations :=
          insertA (env.pkHash att.pk) att m.attestations }, .ok ()) := by
  unfold add_attestation
  dsimp only
  split_ifs with h1 h2 h3 <;> simp_all

/-- Witness for the amended C5: canonical neighbour order is accepted. -/
theorem c5_witness :
    add_attestation
      { pkHash := id, messageHash := fun _ _ => 0,
        verify := fun _ _ _ => true, group := [0, 1, 2, 3, 4],
        fixedPkHashes := [0, 1, 2, 3, 4], native := fun _ _ => [],
        genProof := fun _ _ _ => 0, initialScore := 1000 }
      { cached_proofs := [], attestations := [] }
      { sig := ⟨0, 0, 0⟩, pk := 0, neighbours := [0, 1, 2, 3, 4],
        scores := [1, 1, 1, 1, 1] } =
      ({ cached_proofs := [],
         attestations :=
           [(0, { sig := ⟨0, 0, 0⟩, pk := 0, neighbours := [0, 1, 2, 3, 4],
                  scores := [1, 1, 1, 1, 1] })] }, .ok ()) :=
  c5_ordered_membership_accept _ _ _ rfl (by decide) rfl

/-- Helper: looking up the key just inserted yields the new value. -/
theorem lookupA_insertA_self {α : Type} (k : Nat) (v : α) (l : List (Nat × α)) :
    lookupA k (insertA k v l) = some v := by
  simp [lookupA, insertA]

/-- Helper: after an insert, the inserted binding is the only one with
its key. -/
theorem filter_insertA {α : Type} (k : Nat) (v : α) (l : List (Nat × α)) :
    (insertA k v l).filter (fun e => e.1 == k) = [(k, v)] := by
  simp only [insertA, List.filter_cons, beq_self_eq_true, if_pos, List.filter_filter]
  simp [List.filter_eq_nil_iff]

/-- C10: when two attestations from the same signer are each accepted in
sequence, the second completely replaces the first: `get_attestation` on
the signer's public key returns exactly the second attestation, and the
store holds exactly one binding under the signer's canonical hash. -/
theorem c10_second_accept_replaces (env : CryptoEnv) (m : Manager)
    (a1 a2 : Attestation) (hpk : a2.pk = a1.pk)
    (h1 : (add_attestation env m a1).2 = .ok ())
    (h2 : (add_attestation env (add_attestation env m a1).1 a2).2 = .ok ()) :
    get_attestation env (add_attestation env (add_attestation env m a1).1 a2).1
        a1.pk = .ok a2 ∧
    ((add_attestation env (add_attestation env m a1).1 a2).1.attestations.filter
        (fun e => e.1 == env.pkHash a1.pk)) = [(env.pkHash a1.pk, a2)] := by
  have e2 := add_attestation_ok_eq env _ a2 h2
  rw [e2]
  dsimp only
  rw [hpk]
  constructor
  · simp [get_attestation, lookupA_insertA_self]
  · exact filter_insertA _ _ _

/-- Witness for C10: two accepted attestations from signer 0; the second
one (scores `[2, 2, 2, 2, 2]`) is the one returned and the only binding. -/
theorem c10_witness :
    get_attestation
      { pkHash := id, messageHash := fun _ _ => 0,
        verify := fun _ _ _ => true, group := [0, 1, 2, 3, 4],
        fixedPkHashes := [0, 1, 2, 3, 4], native := fun _ _ => [],
        genProof := fun _ _ _ => 0, initialScore := 1000 }
      (add_attestation
        { pkHash := id, messageHash := fun _ _ => 0,
          verify := fun _ _ _ => true, group := [0, 1, 2, 3, 4],
          fixedPkHashes := [0, 1, 2, 3, 4], native := fun _ _ => [],
          genProof := fun _ _ _ => 0, initialScore := 1000 }
        (add_attestation
          { pkHash := id, messageHash := fun _ _ => 0,
            verify := fun _ _ _ => true, group := [0, 1, 2, 3, 4],
            fixedPkHashes := [0, 1, 2, 3, 4], native := fun _ _ => [],
            genProof := fun _ _ _ => 0, initialScore := 1000 }
          { cached_proofs := [], attestations := [] }
          { sig := ⟨0, 0, 0⟩, pk := 0, neighbours := [0, 1, 2, 3, 4],
            scores := [1, 1, 1, 1, 1] }).1
        { sig := ⟨0, 0, 0⟩, pk := 0, neighbours := [0, 1, 2, 3, 4],
          scores := [2, 2, 2, 2, 2] }).1 0 =
      .ok { sig := ⟨0, 0, 0⟩, pk := 0, neighbours := [0, 1, 2, 3, 4],
            scores := [2, 2, 2, 2, 2] } :=
  (c10_second_accept_replaces
    { pkHash := id, messageHash := fun _ _ => 0,
      verify := fun _ _ _ => true, group := [0, 1, 2, 3, 4],
      fixedPkHashes := [0, 1, 2, 3, 4], native := fun _ _ => [],
      genProof := fun _ _ _ => 0, initialScore := 1000 }
    { cached_proofs := [], attestations := [] }
    { sig := ⟨0, 0, 0⟩, pk := 0, neighbours := [0, 1, 2, 3, 4],
      scores := [1, 1, 1, 1, 1] }
    { sig := ⟨0, 0, 0⟩, pk := 0, neighbours := [0, 1, 2, 3, 4],
      scores := [2, 2, 2, 2, 2] } rfl rfl rfl).1

/-- Two-peer network used to separate the Jacobi update of `tick` from
the Gauss–Seidel update claimed in the spec: peer 0 trusts peer 1 with
weight 1, peer 1 trusts peer 0 with weight 1, scores 1 and 2. -/
def c4net : Network :=
  { peers :=
      [{ index := 0, score := 1, neighbours := [(1, 1)], converged := false },
       { index := 1, score := 2, neighbours := [(0, 1)], converged := false }],
    is_converged := false }

/-- Counterexample to C4: in `tick`, every heartbeat reads the pre-tick
`self.peers`, so peer 1's new score uses peer 0's old score (giving 1),
while the claimed Gauss–Seidel update would use peer 0's already-updated
score (giving 2).  With the identity shuffle the visiting order is
peer 0 then peer 1, and the two updates disagree on peer 1. -/
theorem c4_counterexample :
    lookupScore (tick 1 c4net id).peers 1 = 1 ∧
    lookupScore (tickGS 1 c4net id).peers 1 = 2 ∧
    lookupScore (tick 1 c4net id).peers 1 ≠
      lookupScore (tickGS 1 c4net id).peers 1 := by
  refine ⟨?_, ?_, ?_⟩ <;>
    norm_num [tick, tickGS, gsUpdate, heartbeat, lookupScore, lookupPeer, c4net]

/-- One-peer network whose only raw score is 0, so the raw-score sum is 0. -/
def c7net : Network :=
  { peers := [{ index := 0, score := 0, neighbours := [], converged := false }],
    is_converged := false }

/-- Counterexample to C7 as stated: on a network state whose raw scores
sum to 0 (here a single peer with score 0), `get_global_trust_scores`
divides by zero and the returned values do not sum to 1 (in the rational
model 0/0 = 0; in the floating code the entry is NaN — either way the
sum is not 1). -/
theorem c7_counterexample :
    ¬ (get_global_trust_scores c7net).sum = 1 := by
  norm_num [get_global_trust_scores, c7net]

/-- Helper: dividing every summand by a constant divides the sum. -/
theorem sum_map_div {α : Type} (l : List α) (f : α → ℚ) (s : ℚ) :
    (l.map (fun a => f a / s)).sum = (l.map f).sum / s := by
  induction l with
  | nil => simp
  | cons a t ih => simp [ih, add_div]

/-- C7 (amended): `get_global_trust_scores` returns one value per peer,
each the peer's raw score divided by the sum of all raw scores, and the
returned values sum to 1 provided that sum of raw scores is nonzero. -/
theorem c7_normalized_scores (net : Network)
    (h : (net.peers.map Peer.score).sum ≠ 0) :
    get_global_trust_scores net =
      net.peers.map (fun p => p.score / (net.peers.map Peer.score).sum) ∧
    (get_global_trust_scores net).sum = 1 := by
  refine ⟨rfl, ?_⟩
  unfold get_global_trust_scores
  dsimp only
  rw [sum_map_div net.peers Peer.score]
  exact div_self h

/-- Witness for the amended C7 on a two-peer network with scores 1 and 3. -/
theorem c7_witness :
    (get_global_trust_scores
        { peers :=
            [{ index := 0, score := 1, neighbours := [], converged := false },
             { index := 1, score := 3, neighbours := [], converged := false }],
          is_converged := false }).sum = 1 :=
  (c7_normalized_scores
    { peers :=
        [{ index := 0, score := 1, neighbours := [], converged := false },
         { index := 1, score := 3, neighbours := [], converged := false }],
      is_converged := false } (by norm_num)).2

/-- Helper: with duplicate-free indices, two members sharing an index are
the same peer. -/
theorem index_inj_of_nodup {l : List Peer}
    (hnd : (l.map Peer.index).Nodup) :
    ∀ a ∈ l, ∀ b ∈ l, a.index = b.index → a = b := by
  induction l with
  | nil => intro a ha; cases ha
  | cons p t ih =>
    rw [List.map_cons, List.nodup_cons] at hnd
    intro a ha b hb hab
    rcases List.mem_cons.mp ha with ha1 | ha2
    · rcases List.mem_cons.mp hb with hb1 | hb2
      · rw [ha1, hb1]
      · exact absurd
          (show p.index ∈ t.map Peer.index by
            rw [← ha1, hab]; exact List.mem_map_of_mem Peer.index hb2) hnd.1
    · rcases List.mem_cons.mp hb with hb1 | hb2
      · exact absurd
          (show p.index ∈ t.map Peer.index by
            rw [← hb1, ← hab]; exact List.mem_map_of_mem Peer.index ha2) hnd.1
      · exact ih hnd.2 a ha2 b hb2 hab

/-- Helper: a successful index lookup returns a member with that index. -/
theorem lookupPeer_eq_some {l : List Peer} {j : Nat} {p : Peer}
    (h : lookupPeer l j = some p) : p ∈ l ∧ p.index = j := by
  induction l with
  | nil => cases h
  | cons q t ih =>
    unfold lookupPeer at h
    split_ifs at h with hq
    · cases h
      exact ⟨List.mem_cons_self _ _, hq⟩
    · have := ih h
      exact ⟨List.mem_cons_of_mem q this.1, this.2⟩

/-- Helper: an index lookup fails exactly when no member has the index. -/
theorem lookupPeer_eq_none {l : List Peer} {j : Nat} :
    lookupPeer l j = none ↔ ∀ p ∈ l, p.index ≠ j := by
  induction l with
  | nil => simp [lookupPeer]
  | cons q t ih =>
    unfold lookupPeer
    split_ifs with hq <;> simp_all

/-- Helper: with duplicate-free indices, index lookup is invariant under
permutation of the peer list. -/
theorem lookupPeer_perm {l l' : List Peer} (h : List.Perm l l')
    (hnd : (l.map Peer.index).Nodup) (j : Nat) :
    lookupPeer l j = lookupPeer l' j := by
  cases hl : lookupPeer l j with
  | none =>
    rw [lookupPeer_eq_none] at hl
    exact (lookupPeer_eq_none.mpr fun p hp => hl p (h.mem_iff.mpr hp)).symm
  | some p =>
    obtain ⟨hp, hpj⟩ := lookupPeer_eq_some hl
    cases hl' : lookupPeer l' j with
    | none =>
      rw [lookupPeer_eq_none] at hl'
      exact absurd hpj (hl' p (h.mem_iff.mp hp))
    | some q =>
      obtain ⟨hq, hqj⟩ := lookupPeer_eq_some hl'
      have : q = p :=
        index_inj_of_nodup hnd q (h.mem_iff.mpr hq) p hp (hqj.trans hpj.symm)
      rw [this]

/-- Helper: score lookup is likewise permutation-invariant. -/
theorem lookupScore_perm {l l' : List Peer} (h : List.Perm l l')
    (hnd : (l.map Peer.index).Nodup) (j : Nat) :
    lookupScore l j = lookupScore l' j := by
  unfold lookupScore
  rw [lookupPeer_perm h hnd j]

/-- Helper: a heartbeat only reads the supplied slice through score
lookups, so permuting the slice does not change the heartbeat. -/
theorem heartbeat_perm (delta : ℚ) {A B : List Peer} (h : List.Perm A B)
    (hnd : (A.map Peer.index).Nodup) (p : Peer) :
    heartbeat delta A p = heartbeat delta B p := by
  unfold heartbeat
  have hs : ∀ j, lookupScore A j = lookupScore B j :=
    fun j => lookupScore_perm h hnd j
  simp only [hs]

/-- Helper: `List.all` with one predicate agrees across permutations. -/
theorem all_perm {l l' : List Peer} (h : List.Perm l l') (f : Peer → Bool) :
    l.all f = l'.all f := by
  rw [Bool.eq_iff_iff, List.all_eq_true, List.all_eq_true]
  exact ⟨fun H x hx => H x (h.mem_iff.mpr hx), fun H x hx => H x (h.mem_iff.mp hx)⟩

/-- Helper: a tick from permuted-equal states with arbitrary valid
shuffles yields permuted-equal states with the same convergence flag. -/
theorem tick_perm (delta : ℚ) (net net' : Network)
    (sh sh' : List Peer → List Peer)
    (hsh : List.Perm (sh net.peers) net.peers) (hsh' : List.Perm (sh' net'.peers) net'.peers)
    (hp : List.Perm net.peers net'.peers) (hnd : (net.peers.map Peer.index).Nodup) :
    List.Perm (tick delta net sh).peers (tick delta net' sh').peers ∧
    (tick delta net sh).is_converged = (tick delta net' sh').is_converged := by
  have hfun : heartbeat delta net.peers = heartbeat delta net'.peers :=
    funext fun p => heartbeat_perm delta hp hnd p
  have hperm : List.Perm (tick delta net sh).peers (tick delta net' sh').peers := by
    unfold tick
    dsimp only
    rw [hfun]
    exact ((hsh.trans hp).trans hsh'.symm).map _
  refine ⟨hperm, ?_⟩
  unfold tick
  dsimp only
  rw [hfun]
  exact all_perm (((hsh.trans hp).trans hsh'.symm).map _) _

/-- Helper: a tick preserves duplicate-freeness of the index list. -/
theorem tick_nodup (delta : ℚ) (net : Network) (sh : List Peer → List Peer)
    (hsh : List.Perm (sh net.peers) net.peers)
    (hnd : (net.peers.map Peer.index).Nodup) :
    ((tick delta net sh).peers.map Peer.index).Nodup := by
  unfold tick
  dsimp only
  rw [List.map_map]
  have : (Peer.index ∘ heartbeat delta net.peers) = Peer.index := funext fun p => rfl
  rw [this]
  exact (hsh.map Peer.index).nodup_iff.mpr hnd

/-- Helper: iterated ticks driven by any two sequences of valid shuffles
of equal length keep the two runs permuted-equal with equal flags. -/
theorem tickN_perm (delta : ℚ) (shs shs' : List (List Peer → List Peer))
    (net net' : Network) (hlen : shs.length = shs'.length)
    (hall : ∀ sh ∈ shs, ∀ l, List.Perm (sh l) l)
    (hall' : ∀ sh ∈ shs', ∀ l, List.Perm (sh l) l)
    (hp : List.Perm net.peers net'.peers) (hnd : (net.peers.map Peer.index).Nodup)
    (hc : net.is_converged = net'.is_converged) :
    List.Perm (tickN delta net shs).peers (tickN delta net' shs').peers ∧
    (tickN delta net shs).is_converged = (tickN delta net' shs').is_converged := by
  induction shs generalizing shs' net net' with
  | nil =>
    cases shs' with
    | nil => exact ⟨hp, hc⟩
    | cons _ _ => cases hlen
  | cons sh rest ih =>
    cases shs' with
    | nil => cases hlen
    | cons sh' rest' =>
      have hstep := tick_perm delta net net' sh sh'
        (hall sh (List.mem_cons_self _ _) net.peers)
        (hall' sh' (List.mem_cons_self _ _) net'.peers) hp hnd
      have hnd' := tick_nodup delta net sh
        (hall sh (List.mem_cons_self _ _) net.peers) hnd
      exact ih rest' (tick delta net sh) (tick delta net' sh')
        (by simpa using hlen)
        (fun s hs l => hall s (List.mem_cons_of_mem sh hs) l)
        (fun s hs l => hall' s (List.mem_cons_of_mem sh' hs) l)
        hstep.1 hnd' hstep.2

/-- Helper: iterated ticks preserve duplicate-free indices. -/
theorem tickN_nodup (delta : ℚ) (shs : List (List Peer → List Peer))
    (net : Network) (hall : ∀ sh ∈ shs, ∀ l, List.Perm (sh l) l)
    (hnd : (net.peers.map Peer.index).Nodup) :
    ((tickN delta net shs).peers.map Peer.index).Nodup := by
  induction shs generalizing net with
  | nil => exact hnd
  | cons sh rest ih =>
    exact ih (tick delta net sh)
      (fun s hs l => hall s (List.mem_cons_of_mem sh hs) l)
      (tick_nodup delta net sh (hall sh (List.mem_cons_self _ _) net.peers) hnd)

/-- Helper: index lookup commutes with mapping an index-preserving
heartbeat over the list. -/
theorem lookupPeer_map_heartbeat (delta : ℚ) (A : List Peer)
    (l : List Peer) (j : Nat) :
    lookupPeer (l.map (heartbeat delta A)) j =
      (lookupPeer l j).map (heartbeat delta A) := by
  induction l with
  | nil => rfl
  | cons p t ih =>
    unfold lookupPeer
    have hidx : (heartbeat delta A p).index = p.index := rfl
    rw [List.map_cons]
    split_ifs with h1 <;> simp_all

/-- Helper: with duplicate-free indices, looking a member's index up
finds exactly that member. -/
theorem lookupPeer_self {l : List Peer} (hnd : (l.map Peer.index).Nodup)
    {p : Peer} (hp : p ∈ l) : lookupPeer l p.index = some p := by
  induction l with
  | nil => cases hp
  | cons q t ih =>
    rw [List.map_cons, List.nodup_cons] at hnd
    unfold lookupPeer
    rcases List.mem_cons.mp hp with rfl | hp'
    · rw [if_pos rfl]
    · rw [if_neg, ih hnd.2 hp']
      intro hq
      exact hnd.1 (hq ▸ List.mem_map_of_mem Peer.index hp')

/-- C4 (amended): `tick` performs a Jacobi update: after a tick, the peer
carrying a given index is exactly that peer updated by a heartbeat
computed entirely from the *pre-tick* peer list, for any shuffle — a
neighbour visited earlier in the same tick contributes its pre-tick
score, not its updated one. -/
theorem c4_tick_is_jacobi (delta : ℚ) (net : Network)
    (sh : List Peer → List Peer) (hsh : List.Perm (sh net.peers) net.peers)
    (hnd : (net.peers.map Peer.index).Nodup)
    (p : Peer) (hp : p ∈ net.peers) :
    lookupPeer (tick delta net sh).peers p.index =
      some (heartbeat delta net.peers p) := by
  unfold tick
  dsimp only
  rw [lookupPeer_map_heartbeat]
  rw [lookupPeer_perm hsh ((List.Perm.nodup_iff (hsh.map Peer.index)).mpr hnd)
    p.index]
  rw [lookupPeer_self hnd hp]
  rfl

/-- Witness for the amended C4 at a concrete input: identity shuffle on
the two-peer network; peer 0 after the tick is its pre-tick heartbeat. -/
theorem c4_witness :
    lookupPeer (tick 1 c4net id).peers 0 =
      some (heartbeat 1 c4net.peers
        { index := 0, score := 1, neighbours := [(1, 1)], converged := false }) :=
  c4_tick_is_jacobi 1 c4net id (List.Perm.refl _) (by decide) _
    (List.mem_cons_self _ _)

/-- Two-peer fixed-point network for C8: the scores 1 and 2 reproduce
themselves under a tick, so one tick converges under any shuffle, but the
peer vector ends up in shuffled order. -/
def c8net : Network :=
  { peers :=
      [{ index := 0, score := 1, neighbours := [(1, 1/2)], converged := false },
       { index := 1, score := 2, neighbours := [(0, 2)], converged := false }],
    is_converged := false }

/-- Counterexample to C8 as stated: driving `tick` to convergence (one
tick suffices here) with two different RNGs — one shuffling to the
identity order, one reversing the peer vector — yields *different*
vectors from `get_global_trust_scores`: `[1/3, 2/3]` versus `[2/3, 1/3]`.
The shuffled vector is installed as `self.peers`, so the read-out order
depends on the RNG. -/
theorem c8_counterexample :
    (tick 1 c8net id).is_converged = true ∧
    (tick 1 c8net List.reverse).is_converged = true ∧
    get_global_trust_scores (tick 1 c8net id) ≠
      get_global_trust_scores (tick 1 c8net List.reverse) := by
  refine ⟨?_, ?_, ?_⟩ <;>
    norm_num [tick, heartbeat, lookupScore, lookupPeer, get_global_trust_scores,
      c8net]

/-- C8 (amended): the shuffle only affects the order of the peer vector,
never the per-peer outcome: for any two equal-length sequences of valid
shuffles (each producing a permutation of its input, as `shuffle(rng)`
does for any RNG), iterating `tick` yields the same convergence flag, the
same score for every peer index, and `get_global_trust_scores` vectors
that are permutations of one another. -/
theorem c8_shuffle_affects_only_order (delta : ℚ) (net : Network)
    (shs shs' : List (List Peer → List Peer))
    (hlen : shs.length = shs'.length)
    (hall : ∀ sh ∈ shs, ∀ l, List.Perm (sh l) l)
    (hall' : ∀ sh ∈ shs', ∀ l, List.Perm (sh l) l)
    (hnd : (net.peers.map Peer.index).Nodup) :
    (tickN delta net shs).is_converged = (tickN delta net shs').is_converged ∧
    (∀ j, lookupScore (tickN delta net shs).peers j =
        lookupScore (tickN delta net shs').peers j) ∧
    List.Perm (get_global_trust_scores (tickN delta net shs))
      (get_global_trust_scores (tickN delta net shs')) := by
  have hmain := tickN_perm delta shs shs' net net hlen hall hall'
    (List.Perm.refl _) hnd rfl
  have hnd1 := tickN_nodup delta shs net hall hnd
  refine ⟨hmain.2, fun j => lookupScore_perm hmain.1 hnd1 j, ?_⟩
  have hsum : ((tickN delta net shs').peers.map Peer.score).sum =
      ((tickN delta net shs).peers.map Peer.score).sum :=
    (List.Perm.sum_eq (hmain.1.map Peer.score)).symm
  unfold get_global_trust_scores
  dsimp only
  rw [hsum]
  exact hmain.1.map _

/-- Witness for the amended C8: identity versus reversal shuffle on the
two-peer fixed-point network; the convergence flags agree. -/
theorem c8_witness :
    (tickN 1 c8net [id]).is_converged =
      (tickN 1 c8net [List.reverse]).is_converged ∧
    lookupScore (tickN 1 c8net [id]).peers 0 =
      lookupScore (tickN 1 c8net [List.reverse]).peers 0 :=
  ⟨(c8_shuffle_affects_only_order 1 c8net [id] [List.reverse] rfl
      (by
        intro sh hm l
        rw [List.mem_singleton] at hm
        rw [hm]
        exact List.Perm.refl l)
      (by
        intro sh hm l
        rw [List.mem_singleton] at hm
        rw [hm]
        exact List.reverse_perm l)
      (by decide)).1,
   (c8_shuffle_affects_only_order 1 c8net [id] [List.reverse] rfl
      (by
        intro sh hm l
        rw [List.mem_singleton] at hm
        rw [hm]
        exact List.Perm.refl l)
      (by
        intro sh hm l
        rw [List.mem_singleton] at hm
        rw [hm]
        exact List.reverse_perm l)
      (by decide)).2.1 0⟩

/-- The `AttestationData` wire struct of
`src/protocol/src/manager/attestation.rs`: three 32-byte signature
components, the public key and the neighbours as pairs of 32-byte
coordinates, and the scores as 32-byte strings.  Byte strings are
abstract values (naturals) related to field elements and points through a
`CodecEnv`. -/
structure AttestationData where
  sig_r_x : Nat
  sig_r_y : Nat
  sig_s : Nat
  pk : Nat × Nat
  neighbours : List (Nat × Nat)
  scores : List Nat
deriving DecidableEq, Repr

/-- Abstract byte codec of the external field/point types: `toBytes` and
`fromBytes` model `Fr::to_bytes` / `Fr::from_bytes` (where `none` marks a
non-canonical encoding, whose `unwrap` panics), `toRaw` / `fromRaw` model
`PublicKey::to_raw` / `PublicKey::from_raw`, and `defaultPk` models
`PublicKey::default()`. -/
structure CodecEnv where
  toBytes : Nat → Nat
  fromBytes : Nat → Option Nat
  toRaw : Nat → Nat × Nat
  fromRaw : Nat × Nat → Nat
  defaultPk : Nat

/-- Embedding of `From<Attestation> for AttestationData`
(src/protocol/src/manager/attestation.rs, lines 20-31): serialize the
three signature components, the public key, and the two lists
element-wise; lengths are preserved as-is. -/
def attestation_to_data (env : CodecEnv) (a : Attestation) : AttestationData :=
  { sig_r_x := env.toBytes a.sig.rx, sig_r_y := env.toBytes a.sig.ry,
    sig_s := env.toBytes a.sig.s, pk := env.toRaw a.pk,
    neighbours := a.neighbours.map env.toRaw,
    scores := a.scores.map env.toBytes }

/-- Decode a list of score byte strings, `none` on the first
non-canonical entry (the `unwrap` inside the scores loop). -/
def decodeScores (env : CodecEnv) (l : List Nat) : Option (List Nat) :=
  match l with
  | [] => some []
  | b :: rest =>
    match env.fromBytes b, decodeScores env rest with
    | some x, some xs => some (x :: xs)
    | _, _ => none

/-- Embedding of `From<AttestationData> for Attestation`
(src/protocol/src/manager/attestation.rs, lines 51-70): decode the three
signature components (panicking on non-canonical bytes), decode the
public key, then fill fixed `NUM_NEIGHBOURS`-sized neighbour and score
vectors: wire entries beyond `NUM_NEIGHBOURS` are dropped by the
`take(NUM_NEIGHBOURS)`, and positions beyond the wire list length keep
`PublicKey::default()` resp. `Scalar::zero()`. -/
def attestation_from_data (env : CodecEnv) (d : AttestationData) :
    Option Attestation :=
  match env.fromBytes d.sig_r_x, env.fromBytes d.sig_r_y,
      env.fromBytes d.sig_s with
  | some rx, some ry, some sv =>
    match decodeScores env (d.scores.take NUM_NEIGHBOURS) with
    | some sc =>
      some { sig := ⟨rx, ry, sv⟩, pk := env.fromRaw d.pk,
             neighbours :=
               (d.neighbours.take NUM_NEIGHBOURS).map env.fromRaw ++
                 List.replicate (NUM_NEIGHBOURS - d.neighbours.length)
                   env.defaultPk,
             scores := sc ++ List.replicate (NUM_NEIGHBOURS - d.scores.length) 0 }
    | none => none
  | _, _, _ => none

/-- Identity-style codec: byte strings are the values themselves; a point
is encoded by its first coordinate (this satisfies the value-to-bytes
round-trip laws and is enough to refute the universal round-trip claim). -/
def c9env : CodecEnv :=
  { toBytes := id, fromBytes := some, toRaw := fun x => (x, 0),
    fromRaw := Prod.fst, defaultPk := 0 }

/-- Wire attestation with a single neighbour and a single score. -/
def c9data : AttestationData :=
  { sig_r_x := 0, sig_r_y := 0, sig_s := 0, pk := (0, 0),
    neighbours := [(1, 0)], scores := [1] }

/-- Counterexample to C9: under a codec satisfying the byte round-trip
laws, wire data whose neighbour and score lists have length 1 does not
survive the round trip through `Attestation` — the conversion pads both
lists to `NUM_NEIGHBOURS = 5` entries, so the lengths (and hence the
wire value) change. -/
theorem c9_counterexample :
    (∀ x, c9env.fromBytes (c9env.toBytes x) = some x) ∧
    (∀ p, c9env.fromRaw (c9env.toRaw p) = p) ∧
    (attestation_from_data c9env c9data).map (attestation_to_data c9env) ≠
      some c9data :=
  ⟨fun _ => rfl, fun _ => rfl, by decide⟩

/-- Helper: decoding an encoded score list succeeds and is the identity,
given the codec round-trip law. -/
theorem decodeScores_map_toBytes (env : CodecEnv)
    (hfb : ∀ x, env.fromBytes (env.toBytes x) = some x) (l : List Nat) :
    decodeScores env (l.map env.toBytes) = some l := by
  induction l with
  | nil => rfl
  | cons x t ih => simp only [List.map_cons, decodeScores, hfb x, ih]

/-- Helper: a successful decode re-encodes to the original byte list,
given the bytes-to-value round-trip law. -/
theorem decodeScores_encode (env : CodecEnv)
    (htb : ∀ b x, env.fromBytes b = some x → env.toBytes x = b) :
    ∀ l xs, decodeScores env l = some xs → xs.map env.toBytes = l := by
  intro l
  induction l with
  | nil =>
    intro xs h
    simp only [decodeScores] at h
    cases h
    rfl
  | cons b t ih =>
    intro xs h
    simp only [decodeScores] at h
    cases hb : env.fromBytes b with
    | none => rw [hb] at h; cases h
    | some x =>
      rw [hb] at h
      cases ht : decodeScores env t with
      | none => rw [ht] at h; cases h
      | some ys =>
        rw [ht] at h
        cases h
        rw [List.map_cons, htb b x hb, ih ys ht]

/-- C9 (amended): the round trip is exact precisely on full-arity data:
an `Attestation` whose neighbour and score lists have length exactly
`NUM_NEIGHBOURS` survives `Attestation → AttestationData → Attestation`
bit-exact, and an `AttestationData` with both lists of length
`NUM_NEIGHBOURS` whose byte fields decode successfully survives
`AttestationData → Attestation → AttestationData` bit-exact — always
assuming the byte codec's round-trip laws of the external field/point
types. -/
theorem c9_roundtrip_full_arity (env : CodecEnv) (a : Attestation)
    (d : AttestationData) (a0 : Attestation)
    (hfb : ∀ x, env.fromBytes (env.toBytes x) = some x)
    (hfr : ∀ p, env.fromRaw (env.toRaw p) = p)
    (hna : a.neighbours.length = NUM_NEIGHBOURS)
    (hsa : a.scores.length = NUM_NEIGHBOURS)
    (htb : ∀ b x, env.fromBytes b = some x → env.toBytes x = b)
    (htr : ∀ p, env.toRaw (env.fromRaw p) = p)
    (hnd : d.neighbours.length = NUM_NEIGHBOURS)
    (hsd : d.scores.length = NUM_NEIGHBOURS)
    (hdec : attestation_from_data env d = some a0) :
    attestation_from_data env (attestation_to_data env a) = some a ∧
    attestation_to_data env a0 = d := by
  constructor
  · unfold attestation_to_data attestation_from_data
    dsimp only
    rw [hfb, hfb, hfb]
    rw [List.take_of_length_le (by rw [List.length_map, hsa])]
    rw [decodeScores_map_toBytes env hfb]
    rw [List.take_of_length_le (by rw [List.length_map, hna])]
    rw [List.length_map, List.length_map, hna, hsa]
    simp only [Nat.sub_self, List.replicate_zero, List.append_nil,
      List.map_map]
    have hcomp : env.fromRaw ∘ env.toRaw = id := funext fun p => hfr p
    rw [hcomp, List.map_id, hfr a.pk]
  · unfold attestation_from_data at hdec
    cases h1 : env.fromBytes d.sig_r_x with
    | none => rw [h1] at hdec; cases hdec
    | some rx =>
      cases h2 : env.fromBytes d.sig_r_y with
      | none => rw [h1, h2] at hdec; cases hdec
      | some ry =>
        cases h3 : env.fromBytes d.sig_s with
        | none => rw [h1, h2, h3] at hdec; cases hdec
        | some sv =>
          rw [h1, h2, h3] at hdec
          dsimp only at hdec
          cases h4 : decodeScores env (d.scores.take NUM_NEIGHBOURS) with
          | none => rw [h4] at hdec; cases hdec
          | some sc =>
            rw [h4] at hdec
            dsimp only at hdec
            cases hdec
            unfold attestation_to_data
            dsimp only
            rw [htb _ _ h1, htb _ _ h2, htb _ _ h3, htr d.pk]
            rw [hnd, hsd, Nat.sub_self]
            simp only [List.replicate_zero, List.append_nil, List.map_map]
            have hcomp : env.toRaw ∘ env.fromRaw = id := funext fun p => htr p
            rw [hcomp, List.map_id]
            rw [List.take_of_length_le (le_of_eq hnd)]
            rw [decodeScores_encode env htb _ sc h4]
            rw [List.take_of_length_le (le_of_eq hsd)]

/-- Bijective codec for exercising both round-trip directions: byte
strings are the values themselves and a point is encoded through the
Cantor pairing function. -/
def c9envW : CodecEnv :=
  { toBytes := id, fromBytes := some, toRaw := Nat.unpair,
    fromRaw := fun p => Nat.pair p.1 p.2, defaultPk := 0 }

/-- Witness for the amended C9: a full-arity attestation and a full-arity
wire value each survive their round trip bit-exact. -/
theorem c9_witness :
    attestation_from_data c9envW (attestation_to_data c9envW
      { sig := ⟨1, 2, 3⟩, pk := 4, neighbours := [5, 6, 7, 8, 9],
        scores := [10, 11, 12, 13, 14] }) =
      some { sig := ⟨1, 2, 3⟩, pk := 4, neighbours := [5, 6, 7, 8, 9],
             scores := [10, 11, 12, 13, 14] } ∧
    attestation_to_data c9envW
      { sig := ⟨1, 2, 3⟩, pk := 5, neighbours := [0, 1, 2, 3, 8],
        scores := [1, 2, 3, 4, 5] } =
      { sig_r_x := 1, sig_r_y := 2, sig_s := 3, pk := (1, 2),
        neighbours := [(0, 0), (0, 1), (1, 0), (1, 1), (2, 2)],
        scores := [1, 2, 3, 4, 5] } :=
  c9_roundtrip_full_arity c9envW
    { sig := ⟨1, 2, 3⟩, pk := 4, neighbours := [5, 6, 7, 8, 9],
      scores := [10, 11, 12, 13, 14] }
    { sig_r_x := 1, sig_r_y := 2, sig_s := 3, pk := (1, 2),
      neighbours := [(0, 0), (0, 1), (1, 0), (1, 1), (2, 2)],
      scores := [1, 2, 3, 4, 5] }
    { sig := ⟨1, 2, 3⟩, pk := 5, neighbours := [0, 1, 2, 3, 8],
      scores := [1, 2, 3, 4, 5] }
    (fun _ => rfl) (fun n => Nat.pair_unpair n) rfl rfl
    (fun b x h => by cases h; rfl)
    (fun p => by
      show Nat.unpair (Nat.pair p.1 p.2) = p
      rw [Nat.unpair_pair])
    rfl rfl rfl
